import Mathlib

/-!
Verification model of the coverage chart/aggregation query engine of the
codecov-api repository (`internal_api/chart`): parameter validation,
default filtering, per-commit metric annotation, calendar bucketing with
min/max aggregate selection, carry-forward bucket filling, cross-repository
weighted merging, and output ordering.

The chart modules themselves (`internal_api/chart/helpers.py` and
`internal_api/chart/filters.py`) are not part of the source tree here; only
their test suite (`internal_api/tests/test_charts.py`) is.  The definitions
below are therefore modelled from the specification, with the test suite
fixing concrete expected values.
-/

namespace Charts

/-! ## Calendar model

Timestamps are timezone-normalized civil datetimes.  A `Date` is a proleptic
Gregorian calendar date; `dayNumber` is its rata-die serial number
(0001-01-01 has serial 1), used for chronological comparison and for
week arithmetic. -/

structure Date where
  year : Nat
  month : Nat
  day : Nat
deriving DecidableEq, Repr

/-- Gregorian leap-year test. -/
def isLeap (y : Nat) : Bool :=
  (y % 4 == 0 && y % 100 != 0) || y % 400 == 0

/-- Rata-die serial number of a date (0001-01-01 is day 1). -/
def Date.dayNumber (dt : Date) : Nat :=
  365 * (dt.year - 1) + (dt.year - 1) / 4 - (dt.year - 1) / 100 + (dt.year - 1) / 400
    + (367 * dt.month - 362) / 12
    - (if dt.month ≤ 2 then 0 else if isLeap dt.year then 1 else 2)
    + dt.day

/-- Inverse of `Date.dayNumber` on valid serials (civil-from-days
computation over 400-year eras). -/
def dateOfDayNumber (n : Nat) : Date :=
  let z := n + 305
  let era := z / 146097
  let doe := z % 146097
  let yoe := (doe - doe / 1460 + doe / 36524 - doe / 146096) / 365
  let y := yoe + era * 400
  let doy := doe - (365 * yoe + yoe / 4 - yoe / 100)
  let mp := (5 * doy + 2) / 153
  let d := doy - (153 * mp + 2) / 5 + 1
  let m := if mp < 10 then mp + 3 else mp - 9
  { year := if m ≤ 2 then y + 1 else y, month := m, day := d }

/-- A timezone-aware instant: a civil date plus seconds elapsed within the
day. -/
structure DateTime where
  date : Date
  tod : Nat
deriving DecidableEq, Repr

/-- Seconds since the rata-die epoch, the chronological order on instants. -/
def DateTime.toSec (t : DateTime) : Nat :=
  86400 * t.date.dayNumber + t.tod

/-! ## Query vocabulary -/

inductive GroupingUnit where
  | commit | day | week | month | quarter | year
deriving DecidableEq, Repr

inductive AggFunction where
  | min | max
deriving DecidableEq, Repr

inductive AggValue where
  | coverage | complexity | timestamp
deriving DecidableEq, Repr

inductive ChartOrdering where
  | increasing | decreasing
deriving DecidableEq, Repr

/-- Truncate a date to the start of its containing calendar unit.  Weeks are
Monday-anchored (rata-die serial 1, 0001-01-01, was a Monday); quarters are
3-month boundaries anchored to year start. -/
def truncateDate (u : GroupingUnit) (d : Date) : Date :=
  match u with
  | .commit => d
  | .day => d
  | .week => dateOfDayNumber (d.dayNumber - (d.dayNumber + 6) % 7)
  | .month => { year := d.year, month := d.month, day := 1 }
  | .quarter => { year := d.year, month := 3 * ((d.month - 1) / 3) + 1, day := 1 }
  | .year => { year := d.year, month := 1, day := 1 }

/-- The start of the calendar unit after the given (unit-aligned) date. -/
def nextBucketStart (u : GroupingUnit) (d : Date) : Date :=
  match u with
  | .commit => dateOfDayNumber (d.dayNumber + 1)
  | .day => dateOfDayNumber (d.dayNumber + 1)
  | .week => dateOfDayNumber (d.dayNumber + 7)
  | .month =>
      if d.month = 12 then { year := d.year + 1, month := 1, day := 1 }
      else { year := d.year, month := d.month + 1, day := 1 }
  | .quarter =>
      if 10 ≤ d.month then { year := d.year + 1, month := 1, day := 1 }
      else { year := d.year, month := d.month + 3, day := 1 }
  | .year => { year := d.year + 1, month := 1, day := 1 }

/-- Bucket start dates from `start` (inclusive) stepping one unit at a time
while not past `stop`, fueled by the day distance (each step advances at
least one day). -/
def dateSeriesAux (u : GroupingUnit) (stopN : Nat) : Nat → Date → List Date
  | 0, _ => []
  | fuel + 1, cur =>
      if cur.dayNumber ≤ stopN then cur :: dateSeriesAux u stopN fuel (nextBucketStart u cur)
      else []

/-- The generated series of bucket start dates covering `[start, stop]`. -/
def dateSeries (u : GroupingUnit) (start stop : Date) : List Date :=
  dateSeriesAux u stop.dayNumber (stop.dayNumber + 1 - start.dayNumber) start

/-! ## Record model

`Totals` mirrors the per-commit totals blob: `n` lines, `h` hits, `p`
partials, `m` misses, `c` stored coverage, `C` complexity, `N` complexity
total.  A commit record carries optional totals (absent totals mark the
record as not ready). -/

structure Totals where
  n : Nat
  h : Nat
  p : Nat
  m : Nat
  c : Rat
  C : Rat
  N : Rat
deriving DecidableEq, Repr

inductive CommitState where
  | pending | complete | error
deriving DecidableEq, Repr

structure Commit where
  commitid : String
  repository : Nat
  branch : String
  timestamp : DateTime
  totals : Option Totals
  state : CommitState
  deleted : Bool
  ci_passed : Bool
deriving DecidableEq, Repr

/-! ## Filter stage -/

/-- Modelled from the spec: `apply_default_filters` of
`internal_api/chart/filters.py` keeps only records with `state == complete`,
`deleted == false`, `ci_passed == true` and totals present; it is always the
first stage applied to the record set. -/
def apply_default_filters (commits : List Commit) : List Commit :=
  commits.filter fun c =>
    c.state = CommitState.complete ∧ c.deleted = false ∧ c.ci_passed = true ∧ c.totals.isSome

/-! ## Annotation stage -/

/-- A record annotated with its derived metrics, as exposed to the grouping
stage. -/
structure AnnotatedCommit where
  commit : Commit
  coverage : Rat
  complexity : Rat
  complexity_total : Rat
  complexity_ratio : Option Rat
deriving DecidableEq, Repr

/-- Modelled from the spec: `annotate_commits_with_totals` of
`internal_api/chart/helpers.py` lifts the stored totals of each record into
queryable metric fields; `complexity_ratio = complexity / complexity_total`
when `complexity_total > 0` and null otherwise.  Records with absent totals
carry no metrics (the default filter stage has already removed them in the
engine pipeline). -/
def annotate_commits_with_totals (commits : List Commit) : List AnnotatedCommit :=
  commits.filterMap fun c =>
    (c.totals).map fun t =>
      { commit := c
        coverage := t.c
        complexity := t.C
        complexity_total := t.N
        complexity_ratio := if (0 : Rat) < t.N then some (t.C / t.N) else none }

/-! ## Parameter validator

The raw request is a closed-schema key-value bag.  Validation collects one
error key per offending field and never short-circuits. -/

/-- The recognized parameter keys: the schema is closed. -/
def schemaKeys : List String :=
  ["owner_username", "service", "repositories", "branch", "start_date",
   "end_date", "grouping_unit", "agg_function", "agg_value",
   "coverage_timestamp_ordering"]

def allowedGroupingUnits : List String :=
  ["commit", "day", "week", "month", "quarter", "year"]

def allowedAggFunctions : List String := ["min", "max"]

def allowedAggValues : List String := ["coverage", "complexity", "timestamp"]

def allowedOrderings : List String := ["increasing", "decreasing"]

/-- First value bound to a key in the raw parameter bag. -/
def getParam (bag : List (String × String)) (k : String) : Option String :=
  (bag.find? fun e => e.1 = k).map fun e => e.2

/-- Error entry for an enumerated field whose supplied value is outside its
allowed set; absent fields produce no enum error. -/
def enumFieldErrors (bag : List (String × String)) (k : String)
    (allowed : List String) : List String :=
  match getParam bag k with
  | none => []
  | some v => if v ∈ allowed then [] else [k]

/-- Error entry for the dependent-field rule: a valid non-commit
`grouping_unit` requires both aggregation fields; their absence is reported
as one consolidated error keyed to `grouping_unit`. -/
def aggDependencyErrors (bag : List (String × String)) : List String :=
  match getParam bag "grouping_unit" with
  | none => []
  | some u =>
      if u ∈ allowedGroupingUnits ∧ u ≠ "commit"
          ∧ (getParam bag "agg_function" = none ∨ getParam bag "agg_value" = none)
      then ["grouping_unit"] else []

/-- Modelled from the spec: `validate_params` of
`internal_api/chart/helpers.py` checks the raw bag against the closed
schema and returns every offending field key together — unknown keys,
the always-required owner identifier, enumerated-value violations, and the
consolidated dependent-aggregation-field error. -/
def validate_params (bag : List (String × String)) : List String :=
  ((bag.map fun e => e.1).dedup.filter fun k => k ∉ schemaKeys)
    ++ (if getParam bag "owner_username" = none then ["owner_username"] else [])
    ++ enumFieldErrors bag "grouping_unit" allowedGroupingUnits
    ++ enumFieldErrors bag "agg_function" allowedAggFunctions
    ++ enumFieldErrors bag "agg_value" allowedAggValues
    ++ enumFieldErrors bag "coverage_timestamp_ordering" allowedOrderings
    ++ aggDependencyErrors bag

/-! ## Bucketing and aggregation stage -/

/-- The value of the chosen aggregation metric on an annotated record
(timestamps compare by their instant). -/
def aggRank (v : AggValue) (a : AnnotatedCommit) : Rat :=
  match v with
  | .coverage => a.coverage
  | .complexity => a.complexity
  | .timestamp => (a.commit.timestamp.toSec : Rat)

/-- Strict preference between two candidate records of one bucket: under
`max` the greater metric value wins with ties broken by the later
timestamp, under `min` the lesser value wins with ties broken by the
earlier timestamp. -/
def better (f : AggFunction) (v : AggValue) (a b : AnnotatedCommit) : Prop :=
  match f with
  | .max => aggRank v b < aggRank v a
      ∨ (aggRank v a = aggRank v b
          ∧ b.commit.timestamp.toSec < a.commit.timestamp.toSec)
  | .min => aggRank v a < aggRank v b
      ∨ (aggRank v a = aggRank v b
          ∧ a.commit.timestamp.toSec < b.commit.timestamp.toSec)

instance (f : AggFunction) (v : AggValue) (a b : AnnotatedCommit) :
    Decidable (better f v a b) := by
  unfold better; cases f <;> infer_instance

/-- The single winning record of a bucket group. -/
def pickWinner (f : AggFunction) (v : AggValue) : List AnnotatedCommit → Option AnnotatedCommit
  | [] => none
  | a :: rest =>
      match pickWinner f v rest with
      | none => some a
      | some b => if better f v a b then some a else some b

/-- The grouping key of a record: its repository together with its
timestamp truncated to the requested calendar unit. -/
def bucketKey (u : GroupingUnit) (a : AnnotatedCommit) : Nat × Date :=
  (a.commit.repository, truncateDate u a.commit.timestamp.date)

/-- Chronological comparison used for output ordering of grouped records. -/
def tsLeAsc (a b : AnnotatedCommit) : Prop :=
  a.commit.timestamp.toSec ≤ b.commit.timestamp.toSec

/-- Reverse-chronological comparison for decreasing output ordering. -/
def tsLeDesc (a b : AnnotatedCommit) : Prop :=
  b.commit.timestamp.toSec ≤ a.commit.timestamp.toSec

instance (a b : AnnotatedCommit) : Decidable (tsLeAsc a b) := by
  unfold tsLeAsc; infer_instance

instance (a b : AnnotatedCommit) : Decidable (tsLeDesc a b) := by
  unfold tsLeDesc; infer_instance

/-- Final timestamp ordering of a grouped record set per the requested
display ordering. -/
def orderGrouped (o : ChartOrdering) (l : List AnnotatedCommit) : List AnnotatedCommit :=
  match o with
  | .increasing => List.insertionSort tsLeAsc l
  | .decreasing => List.insertionSort tsLeDesc l

/-- The typed grouping/aggregation parameters consumed by the helper
pipeline after validation. -/
structure ChartParams where
  grouping_unit : GroupingUnit
  agg_function : AggFunction
  agg_value : AggValue
  ordering : ChartOrdering
deriving DecidableEq

/-- One winning record per (repository, truncated timestamp) group, the
groups taken in order of first appearance. -/
def groupWinners (u : GroupingUnit) (f : AggFunction) (v : AggValue)
    (l : List AnnotatedCommit) : List AnnotatedCommit :=
  ((l.map (bucketKey u)).dedup).filterMap fun k =>
    pickWinner f v (l.filter fun a => bucketKey u a = k)

/-- Modelled from the spec: `apply_grouping` of
`internal_api/chart/helpers.py` — for a non-commit grouping unit, group the
filtered annotated records by repository and calendar-truncated timestamp,
keep exactly one winning record per group according to the aggregation
function and metric, and order the winners by timestamp per the requested
display ordering; for commit grouping every record is its own point. -/
def apply_grouping (l : List AnnotatedCommit) (p : ChartParams) : List AnnotatedCommit :=
  if p.grouping_unit = GroupingUnit.commit then orderGrouped p.ordering l
  else orderGrouped p.ordering
    (groupWinners p.grouping_unit p.agg_function p.agg_value l)

/-- Correctness contract of the grouping stage: the output draws from the
input, covers every populated (repository, window) group exactly once, and
each winner is optimal for the aggregation function with the specified
timestamp tie-breaks. -/
def GroupingCorrect (l : List AnnotatedCommit) (p : ChartParams) : Prop :=
  (∀ w ∈ apply_grouping l p, w ∈ l)
    ∧ (∀ c ∈ l, ∃ w ∈ apply_grouping l p,
        bucketKey p.grouping_unit w = bucketKey p.grouping_unit c)
    ∧ (∀ k : Nat × Date,
        (apply_grouping l p).countP
          (fun w => decide (bucketKey p.grouping_unit w = k)) ≤ 1)
    ∧ (∀ w ∈ apply_grouping l p, ∀ c ∈ l,
        bucketKey p.grouping_unit c = bucketKey p.grouping_unit w →
          (p.agg_function = AggFunction.min →
            aggRank p.agg_value w ≤ aggRank p.agg_value c
              ∧ (aggRank p.agg_value c = aggRank p.agg_value w →
                  w.commit.timestamp.toSec ≤ c.commit.timestamp.toSec))
          ∧ (p.agg_function = AggFunction.max →
            aggRank p.agg_value c ≤ aggRank p.agg_value w
              ∧ (aggRank p.agg_value c = aggRank p.agg_value w →
                  c.commit.timestamp.toSec ≤ w.commit.timestamp.toSec)))

/-! ## Cross-repository query runner

`ChartQueryRunner` produces the organization-level merged series: permitted
repositories in scope, calendar buckets from the start date to the end
date, the latest complete record per repository per bucket with
carry-forward of the last known record into empty buckets, and one weighted
aggregate point per bucket. -/

structure Repository where
  repoid : Nat
  name : String
  author : String
  branch : String
deriving DecidableEq

/-- The read-only record store the engine queries. -/
structure Database where
  repos : List Repository
  commits : List Commit
deriving DecidableEq

/-- The requesting identity, as the set of repository ids it may read. -/
structure User where
  permission : List Nat
deriving DecidableEq

/-- The runner request: owner scope, optional repository-name narrowing,
optional date range, calendar unit and display ordering. -/
structure RunnerParams where
  owner_username : String
  repositories : Option (List String)
  start_date : Option DateTime
  end_date : Option DateTime
  grouping_unit : GroupingUnit
  ordering : ChartOrdering
deriving DecidableEq

/-- Rounding to two decimal places (round half away from zero on the
positive values that arise here). -/
def round2 (x : Rat) : Rat := (round (x * 100) : Rat) / 100

/-- One output point of the merged series. -/
structure QueryPoint where
  date : Date
  total_lines : Nat
  total_hits : Nat
  total_misses : Nat
  total_partials : Nat
  coverage : Rat
deriving DecidableEq

/-- Modelled from the spec: the per-bucket cross-repository merge — sum
lines, hits, misses and partials across the contributing records and
recompute coverage as the single weighted percentage
`round((hits + partials) / lines * 100, 2)`. -/
def mergeBucket (b : Date) (ts : List Totals) : QueryPoint :=
  let lines := (ts.map fun t => t.n).sum
  let hits := (ts.map fun t => t.h).sum
  let misses := (ts.map fun t => t.m).sum
  let partials := (ts.map fun t => t.p).sum
  { date := b
    total_lines := lines
    total_hits := hits
    total_misses := misses
    total_partials := partials
    coverage :=
      if lines = 0 then 0
      else round2 (((hits : Rat) + (partials : Rat)) / (lines : Rat) * 100) }

/-- Whether a repository name passes the optional name narrowing. -/
def nameSelected : Option (List String) → String → Bool
  | none, _ => true
  | some names, name => decide (name ∈ names)

/-- Repositories in scope: owned by the requested owner, readable by the
requesting identity, and matching the repository-name narrowing when one is
supplied. -/
def repoids (db : Database) (user : User) (p : RunnerParams) : List Nat :=
  (db.repos.filter fun r =>
    r.author = p.owner_username ∧ r.repoid ∈ user.permission ∧
      nameSelected p.repositories r.name = true).map fun r => r.repoid

/-- The aggregatable records of one repository: complete, on the default
branch of that repository, with totals present. -/
def repoCommits (db : Database) (rid : Nat) : List Commit :=
  db.commits.filter fun c =>
    c.repository = rid ∧ c.state = CommitState.complete ∧ c.totals.isSome ∧
      ∃ r ∈ db.repos, r.repoid = rid ∧ c.branch = r.branch

instance (db : Database) (c : Commit) (rid : Nat) :
    Decidable (∃ r ∈ db.repos, r.repoid = rid ∧ c.branch = r.branch) :=
  List.decidableBEx _ db.repos

/-- All complete records over the repositories in scope (used only for the
default start date). -/
def completeCommits (db : Database) (rids : List Nat) : List Commit :=
  db.commits.filter fun c => c.repository ∈ rids ∧ c.state = CommitState.complete

/-- The calendar date of the earliest complete record in scope, when one
exists. -/
def first_complete_commit_date (db : Database) (user : User) (p : RunnerParams) :
    Option Date :=
  ((completeCommits db (repoids db user p)).argmin
      (fun c => c.timestamp.toSec)).map fun c => c.timestamp.date

/-- The effective start date: the supplied instant truncated to its
calendar date, else the date of the first complete record in scope. -/
def runner_start_date (db : Database) (user : User) (p : RunnerParams) : Option Date :=
  match p.start_date with
  | some dt => some dt.date
  | none => first_complete_commit_date db user p

/-- The effective end date: the supplied instant truncated to its calendar
date, else the calendar date of the current instant. -/
def runner_end_date (p : RunnerParams) (now : DateTime) : Date :=
  match p.end_date with
  | some dt => dt.date
  | none => now.date

/-- The winning (latest) record of one repository within one bucket. -/
def bucketWinner (db : Database) (u : GroupingUnit) (rid : Nat) (b : Date) :
    Option Commit :=
  ((repoCommits db rid).filter fun c =>
    truncateDate u c.timestamp.date = b).argmax (fun c => c.timestamp.toSec)

/-- The latest record of one repository strictly before the first bucket,
seeding the carry-forward walk. -/
def lastKnownBefore (db : Database) (u : GroupingUnit) (rid : Nat) (firstB : Date) :
    Option Commit :=
  ((repoCommits db rid).filter fun c =>
    (truncateDate u c.timestamp.date).dayNumber < firstB.dayNumber).argmax
      (fun c => c.timestamp.toSec)

/-- Modelled from the spec: the carry-forward walk of one repository —
buckets are visited in chronological order and a bucket with no new winning
record inherits the record of the immediately preceding non-empty bucket
(chaining across consecutive empty buckets), starting from the last record
known before the first bucket. -/
def fillSeries (w : Date → Option Commit) (last : Option Commit) :
    List Date → List (Option Commit)
  | [] => []
  | b :: rest =>
      let cur := (w b).orElse fun _ => last
      cur :: fillSeries w cur rest

/-- Merge the per-repository filled series bucket by bucket; a bucket to
which no repository contributes a record is omitted. -/
def mergeFilled : List Date → List (List (Option Commit)) → List QueryPoint
  | [], _ => []
  | b :: rest, filled =>
      let ts := filled.filterMap fun s => (s.head?.join).bind fun c => c.totals
      (if ts.isEmpty then [] else [mergeBucket b ts])
        ++ mergeFilled rest (filled.map fun s => s.tail)

/-- Display ordering of the merged points (they are produced in ascending
bucket order). -/
def orderPoints (o : ChartOrdering) (pts : List QueryPoint) : List QueryPoint :=
  match o with
  | .increasing => pts
  | .decreasing => pts.reverse

/-- Modelled from the spec: `ChartQueryRunner.run_query` of
`internal_api/chart/helpers.py` — resolve the repositories in scope, the
date range and the bucket series, fill each repository series with
carry-forward, merge the buckets across repositories into weighted points
and order them.  An empty scope (no permitted repositories, or none with
any record when no start date is supplied) yields the empty series. -/
def run_query (db : Database) (user : User) (p : RunnerParams) (now : DateTime) :
    List QueryPoint :=
  let rids := repoids db user p
  match runner_start_date db user p with
  | none => []
  | some sd =>
      let firstB := truncateDate p.grouping_unit sd
      let buckets := dateSeries p.grouping_unit firstB (runner_end_date p now)
      let filled := rids.map fun rid =>
        fillSeries (bucketWinner db p.grouping_unit rid)
          (lastKnownBefore db p.grouping_unit rid firstB) buckets
      orderPoints p.ordering (mergeFilled buckets filled)

/-! ## Ordering and delta stage

The per-repository chart attaches a period-over-period coverage delta to an
ascending series and only then applies the requested display ordering. -/

/-- One dated coverage value of the per-repository series. -/
structure ChartPoint where
  date : Date
  coverage : Rat
  coverage_change : Rat
deriving DecidableEq

/-- Tail of the delta computation: each point carries its coverage minus
the coverage of the chronologically preceding point. -/
def coverageChangeTail (prev : Rat) : List (Date × Rat) → List ChartPoint
  | [] => []
  | q :: rest => ⟨q.1, q.2, q.2 - prev⟩ :: coverageChangeTail q.2 rest

/-- Modelled from the spec: annotate an ascending chronological series with
`coverage_change`; the first chronological point always has delta 0 and
every later point carries `coverage[i] - coverage[i-1]`. -/
def with_coverage_change : List (Date × Rat) → List ChartPoint
  | [] => []
  | q :: rest => ⟨q.1, q.2, 0⟩ :: coverageChangeTail q.2 rest

/-- The requested display ordering of an ascending series. -/
def order_series (o : ChartOrdering) (pts : List ChartPoint) : List ChartPoint :=
  match o with
  | .increasing => pts
  | .decreasing => pts.reverse

/-- Modelled from the spec: the output assembly of the per-repository chart
— deltas are computed on the ascending chronological series first and the
display ordering is applied afterward. -/
def repository_chart_series (o : ChartOrdering) (pts : List (Date × Rat)) :
    List ChartPoint :=
  order_series o (with_coverage_change pts)

/-! ## Per-repository chart pipeline

The per-repository chart composes the stages in the order fixed by the
spec control flow (and exercised verbatim by the test suite): default
filtering first, then simple filtering, annotation and grouping. -/

/-- The simple-filter request: owner scope, optional repository-name
narrowing, optional branch, optional inclusive date range. -/
structure SimpleFilterParams where
  owner_username : String
  repositories : Option (List String)
  branch : Option String
  start_date : Option DateTime
  end_date : Option DateTime
deriving DecidableEq

/-- Whether a record is in scope for the simple filters: its repository is
owned by the requested owner and either named in the repositories
parameter (when given) or readable by the requesting identity, and the
record is on the requested branch (else on the default branch of its
repository). -/
def inSimpleScope (db : Database) (user : User) (data : SimpleFilterParams)
    (c : Commit) : Bool :=
  db.repos.any fun r =>
    r.repoid == c.repository && r.author == data.owner_username
      && (match data.repositories with
          | some names => decide (r.name ∈ names)
          | none => decide (r.repoid ∈ user.permission))
      && (match data.branch with
          | some b => c.branch == b
          | none => c.branch == r.branch)

/-- The effective inclusive lower time bound: the supplied start instant,
else the instant of the earliest complete record in scope (a default that
excludes no complete in-scope record; with no such record the bound is
vacuous). -/
def simpleLowerBound (db : Database) (user : User) (data : SimpleFilterParams)
    (records : List Commit) : Option Nat :=
  match data.start_date with
  | some dt => some dt.toSec
  | none =>
      ((records.filter fun c =>
          inSimpleScope db user data c && decide (c.state = CommitState.complete)).argmin
        fun c => c.timestamp.toSec).map fun c => c.timestamp.toSec

/-- The effective inclusive upper time bound: the supplied end instant,
else the current instant. -/
def simpleUpperBound (data : SimpleFilterParams) (now : DateTime) : Nat :=
  (match data.end_date with | some dt => dt | none => now).toSec

/-- Modelled from the spec: `apply_simple_filters` of
`internal_api/chart/filters.py` — restrict to records whose repository is
owned by the requested owner and either named in the repositories
parameter or readable by the requesting identity, on the requested branch
(else the default branch of the repository), with timestamp inside the
inclusive date range, the bounds defaulted as in section 3 when absent. -/
def apply_simple_filters (db : Database) (user : User) (data : SimpleFilterParams)
    (now : DateTime) (records : List Commit) : List Commit :=
  records.filter fun c =>
    inSimpleScope db user data c
      && (match simpleLowerBound db user data records with
          | some lo => decide (lo ≤ c.timestamp.toSec)
          | none => true)
      && decide (c.timestamp.toSec ≤ simpleUpperBound data now)

/-- Modelled from the spec: the per-repository chart pipeline — the
default filter stage is applied first, unconditionally, before simple
filtering, annotation and grouping (spec section 2 control flow, and the
composition used by the chart test suite). -/
def repository_chart_pipeline (db : Database) (user : User)
    (data : SimpleFilterParams) (now : DateTime) (records : List Commit)
    (p : ChartParams) : List AnnotatedCommit :=
  apply_grouping
    (annotate_commits_with_totals
      (apply_simple_filters db user data now (apply_default_filters records))) p

/-! ## Concrete scenario inputs

Concrete data mirroring the fixtures of `internal_api/tests/test_charts.py`,
used to evaluate the engine on explicit inputs. -/

/-- The repository totals `{h: 100, n: 120, p: 10, m: 10}` of the first
fixture commit. -/
def demoTotals1 : Totals :=
  { n := 120, h := 100, p := 10, m := 10, c := 11/12, C := 0, N := 0 }

/-- The repository totals `{h: 14, n: 25, p: 6, m: 5}` of the second
fixture commit. -/
def demoTotals2 : Totals :=
  { n := 25, h := 14, p := 6, m := 5, c := 4/5, C := 0, N := 0 }

/-- A complete, CI-passed, non-deleted commit fixture. -/
def mkCommit (id : String) (rid : Nat) (d : Date) (tod : Nat) (t : Totals) : Commit :=
  { commitid := id, repository := rid, branch := "master", timestamp := ⟨d, tod⟩,
    totals := some t, state := CommitState.complete, deleted := false,
    ci_passed := true }

/-- The all-zero totals blob of the no-complexity fixture. -/
def zeroTotals : Totals :=
  { n := 0, h := 0, p := 0, m := 0, c := 0, C := 0, N := 0 }

/-- A zero-totals commit whose complexity total is zero. -/
def noComplexityCommit : Commit :=
  mkCommit "sdfkjwepj42" 1 ⟨2020, 5, 15⟩ 0 zeroTotals

/-- Two repositories of one owner, both readable by the fixture user. -/
def demoDb : Database :=
  { repos := [⟨1, "repo1", "org", "master"⟩, ⟨2, "repo2", "org", "master"⟩],
    commits := [mkCommit "c1" 1 ⟨2020, 5, 15⟩ 1000 demoTotals1,
                mkCommit "c2" 2 ⟨2020, 5, 15⟩ 2000 demoTotals2] }

/-- Same repositories, with the first commit a week before the second. -/
def carryDb : Database :=
  { repos := [⟨1, "repo1", "org", "master"⟩, ⟨2, "repo2", "org", "master"⟩],
    commits := [mkCommit "c1" 1 ⟨2020, 5, 8⟩ 1000 demoTotals1,
                mkCommit "c2" 2 ⟨2020, 5, 15⟩ 2000 demoTotals2] }

def demoUser : User := ⟨[1, 2]⟩

/-- One-bucket request: both commits fall on the single requested day. -/
def demoParams : RunnerParams :=
  { owner_username := "org", repositories := none, start_date := none,
    end_date := some ⟨⟨2020, 5, 15⟩, 3600⟩, grouping_unit := GroupingUnit.day,
    ordering := ChartOrdering.increasing }

/-- Two-bucket request starting the day before the second commit, after the
first. -/
def carryParams : RunnerParams :=
  { owner_username := "org", repositories := none,
    start_date := some ⟨⟨2020, 5, 14⟩, 50⟩,
    end_date := some ⟨⟨2020, 5, 15⟩, 3600⟩, grouping_unit := GroupingUnit.day,
    ordering := ChartOrdering.increasing }

def demoNow : DateTime := ⟨⟨2020, 5, 15⟩, 7200⟩

/-- The merged one-bucket point: summed counts and weighted coverage. -/
def demoMergedPoint : QueryPoint :=
  { date := ⟨2020, 5, 15⟩, total_lines := 145, total_hits := 114,
    total_misses := 15, total_partials := 16, coverage := 4483/50 }

/-- The carried-forward first bucket: only the week-old commit of the first
repository contributes. -/
def carryPoint1 : QueryPoint :=
  { date := ⟨2020, 5, 14⟩, total_lines := 120, total_hits := 100,
    total_misses := 10, total_partials := 10, coverage := 9167/100 }

/-- The raw bag supplying only the owner and a non-commit grouping unit. -/
def aggMissingBag : List (String × String) :=
  [("owner_username", "org1"), ("grouping_unit", "month")]

/-- The all-invalid raw bag of `test_validate_params_invalid`. -/
def invalidBag : List (String × String) :=
  [("agg_function", "potato"), ("grouping_unit", "potato"),
   ("coverage_timestamp_ordering", "potato"), ("repositories", ""),
   ("field_not_in_schema", "1")]

/-- A runner request scoped to an owner with no repositories. -/
def emptyScopeParams : RunnerParams :=
  { owner_username := "nobody", repositories := none, start_date := none,
    end_date := none, grouping_unit := GroupingUnit.day,
    ordering := ChartOrdering.increasing }

/-- Three ascending dated coverage values 80, 85, 90. -/
def deltaDemoSeries : List (Date × Rat) :=
  [(⟨2020, 5, 13⟩, 80), (⟨2020, 5, 14⟩, 85), (⟨2020, 5, 15⟩, 90)]

/-- A start instant carrying a time of day. -/
def demoStartInstant : DateTime := ⟨⟨2020, 5, 15⟩, 4321⟩

/-- Request with an explicit start instant and no end instant. -/
def truncDemoParams : RunnerParams :=
  { owner_username := "org", repositories := none,
    start_date := some demoStartInstant, end_date := none,
    grouping_unit := GroupingUnit.day, ordering := ChartOrdering.increasing }

/-- An annotated record fixture with a chosen coverage value. -/
def mkAnnotated (id : String) (rid : Nat) (d : Date) (tod : Nat) (cov : Rat) :
    AnnotatedCommit :=
  { commit := mkCommit id rid d tod zeroTotals, coverage := cov, complexity := 0,
    complexity_total := 0, complexity_ratio := none }

/-- Three annotated records: two of one repository on the same day with
different coverages, one of another repository. -/
def groupDemoList : List AnnotatedCommit :=
  [mkAnnotated "a1" 1 ⟨2020, 5, 15⟩ 100 80,
   mkAnnotated "a2" 1 ⟨2020, 5, 15⟩ 200 75,
   mkAnnotated "a3" 2 ⟨2020, 5, 15⟩ 300 90]

/-- Day grouping by minimum coverage. -/
def groupDemoParams : ChartParams :=
  { grouping_unit := GroupingUnit.day, agg_function := AggFunction.min,
    agg_value := AggValue.coverage, ordering := ChartOrdering.increasing }

/-- Totals of the record that survives the full pipeline. -/
def pipelineDemoTotals : Totals :=
  { n := 100, h := 80, p := 0, m := 20, c := 80, C := 0, N := 0 }

/-- A record meeting every default-filter condition. -/
def pipelineDemoGood : Commit :=
  mkCommit "p1" 1 ⟨2020, 5, 15⟩ 100 pipelineDemoTotals

/-- A pending, deleted, CI-failed record without totals. -/
def pipelineDemoBad : Commit :=
  { commitid := "p2", repository := 1, branch := "master",
    timestamp := ⟨⟨2020, 5, 15⟩, 200⟩, totals := none,
    state := CommitState.pending, deleted := true, ci_passed := false }

def pipelineDemoRecords : List Commit := [pipelineDemoGood, pipelineDemoBad]

/-- Simple-filter request for the pipeline fixture: owner scope only, with
an explicit end instant. -/
def pipelineDemoFilters : SimpleFilterParams :=
  { owner_username := "org", repositories := none, branch := none,
    start_date := none, end_date := some ⟨⟨2020, 5, 15⟩, 86399⟩ }

/-- The annotated record the pipeline fixture produces. -/
def pipelineDemoAnnotated : AnnotatedCommit :=
  { commit := pipelineDemoGood, coverage := 80, complexity := 0,
    complexity_total := 0, complexity_ratio := none }

/-! ## Helper lemmas -/

theorem coverageChangeTail_length (prev : Rat) (rest : List (Date × Rat)) :
    (coverageChangeTail prev rest).length = rest.length := by
  induction rest generalizing prev with
  | nil => rfl
  | cons q rest ih => simp [coverageChangeTail, ih]

theorem with_coverage_change_length (pts : List (Date × Rat)) :
    (with_coverage_change pts).length = pts.length := by
  cases pts with
  | nil => rfl
  | cons q rest => simp [with_coverage_change, coverageChangeTail_length]

theorem coverageChangeTail_getD (prev : Rat) (rest : List (Date × Rat)) (i : Nat)
    (hi : i < rest.length) :
    ((coverageChangeTail prev rest).getD i ⟨⟨1, 1, 1⟩, 0, 0⟩).coverage_change =
      (rest.getD i (⟨1, 1, 1⟩, 0)).2
        - (if i = 0 then prev else (rest.getD (i - 1) (⟨1, 1, 1⟩, 0)).2) := by
  induction rest generalizing prev i with
  | nil => simp at hi
  | cons q rest ih =>
      cases i with
      | zero => simp [coverageChangeTail]
      | succ j =>
          have hj : j < rest.length := by simpa using hi
          have := ih q.2 j hj
          cases j with
          | zero => simpa [coverageChangeTail] using this
          | succ m => simpa [coverageChangeTail] using this

/-! ## Claim theorems: filter, annotation, dates, deltas -/

theorem mem_apply_default_filters (l : List Commit) (c : Commit) :
    c ∈ apply_default_filters l ↔
      c ∈ l ∧ c.state = CommitState.complete ∧ c.deleted = false
        ∧ c.ci_passed = true ∧ c.totals.isSome := by
  simp [apply_default_filters, List.mem_filter, and_assoc]

/-- C9: for every record whose totals are present,
`annotate_commits_with_totals` yields an annotated record whose derived
`complexity_ratio` is `complexity / complexity_total` when the complexity
total is positive and null (not zero) when it is zero. -/
theorem annotate_complexity_ratio (l : List Commit) (c : Commit) (t : Totals)
    (hc : c ∈ l) (ht : c.totals = some t) :
    ∃ a ∈ annotate_commits_with_totals l,
      a.commit = c ∧ a.coverage = t.c ∧ a.complexity = t.C
        ∧ a.complexity_total = t.N
        ∧ ((0 : Rat) < t.N → a.complexity_ratio = some (t.C / t.N))
        ∧ (t.N = 0 → a.complexity_ratio = none) := by
  refine ⟨{ commit := c, coverage := t.c, complexity := t.C, complexity_total := t.N,
            complexity_ratio := if (0 : Rat) < t.N then some (t.C / t.N) else none },
          ?_, rfl, rfl, rfl, rfl, ?_, ?_⟩
  · exact List.mem_filterMap.mpr ⟨c, hc, by rw [ht]; rfl⟩
  · intro h; simp [if_pos h]
  · intro h; simp [h]

/-- C9 witness: a concrete record with zero complexity total gets a null
ratio (and the positive case is covered by the same application). -/
theorem annotate_complexity_ratio_witness :
    noComplexityCommit ∈ [noComplexityCommit]
      ∧ noComplexityCommit.totals = some zeroTotals
      ∧ ∃ a ∈ annotate_commits_with_totals [noComplexityCommit],
          a.commit = noComplexityCommit ∧ a.coverage = zeroTotals.c
            ∧ a.complexity = zeroTotals.C ∧ a.complexity_total = zeroTotals.N
            ∧ ((0 : Rat) < zeroTotals.N →
                a.complexity_ratio = some (zeroTotals.C / zeroTotals.N))
            ∧ (zeroTotals.N = 0 → a.complexity_ratio = none) :=
  ⟨List.mem_singleton.mpr rfl, rfl,
    annotate_complexity_ratio [noComplexityCommit] noComplexityCommit zeroTotals
      (List.mem_singleton.mpr rfl) rfl⟩

/-- C10: the runner coarsens time bounds to whole calendar dates — a
supplied start or end instant is truncated to its calendar date and an
absent end date defaults to the date of the current instant. -/
theorem runner_dates_truncated (db : Database) (user : User) (p : RunnerParams)
    (now dt : DateTime) :
    (p.start_date = some dt → runner_start_date db user p = some dt.date)
      ∧ (p.end_date = some dt → runner_end_date p now = dt.date)
      ∧ (p.end_date = none → runner_end_date p now = now.date) := by
  refine ⟨fun h => ?_, fun h => ?_, fun h => ?_⟩
  · rw [runner_start_date, h]
  · rw [runner_end_date, h]
  · rw [runner_end_date, h]

/-- C10 witness: a start instant with a time of day is truncated to its
date, and with no end parameter the end date is the date of the current
instant. -/
theorem runner_dates_truncated_witness :
    truncDemoParams.start_date = some demoStartInstant
      ∧ runner_start_date ⟨[], []⟩ ⟨[]⟩ truncDemoParams = some ⟨2020, 5, 15⟩
      ∧ truncDemoParams.end_date = none
      ∧ runner_end_date truncDemoParams ⟨⟨2021, 1, 2⟩, 999⟩ = ⟨2021, 1, 2⟩ :=
  ⟨rfl,
    (runner_dates_truncated ⟨[], []⟩ ⟨[]⟩ _ ⟨⟨2021, 1, 2⟩, 999⟩ demoStartInstant).1 rfl,
    rfl,
    (runner_dates_truncated ⟨[], []⟩ ⟨[]⟩ _ ⟨⟨2021, 1, 2⟩, 999⟩ demoStartInstant).2.2 rfl⟩

/-- C4: `coverage_change` is computed in ascending chronological order —
the first chronological point has delta 0 and every later point carries
`coverage[i] - coverage[i-1]` — and the requested display ordering is
applied only afterward, so the delta attached to each point does not depend
on the display order. -/
theorem coverage_change_chronological (pts : List (Date × Rat)) :
    (with_coverage_change pts).length = pts.length
      ∧ (∀ i, i < pts.length →
          ((with_coverage_change pts).getD i ⟨⟨1, 1, 1⟩, 0, 0⟩).coverage_change =
            if i = 0 then 0
            else (pts.getD i (⟨1, 1, 1⟩, 0)).2 - (pts.getD (i - 1) (⟨1, 1, 1⟩, 0)).2)
      ∧ repository_chart_series ChartOrdering.decreasing pts =
          (repository_chart_series ChartOrdering.increasing pts).reverse := by
  refine ⟨with_coverage_change_length pts, fun i hi => ?_, rfl⟩
  cases pts with
  | nil => simp at hi
  | cons q rest =>
      cases i with
      | zero => simp [with_coverage_change]
      | succ j =>
          have hj : j < rest.length := by simpa using hi
          have h := coverageChangeTail_getD q.2 rest j hj
          cases j with
          | zero => simpa [with_coverage_change] using h
          | succ m => simpa [with_coverage_change] using h

/-- C4 witness: on the three-point series with coverages 80, 85, 90 the
second point carries delta 5, and the decreasing display is the reversal of
the increasing display with deltas untouched. -/
theorem coverage_change_chronological_witness :
    (with_coverage_change deltaDemoSeries).length = deltaDemoSeries.length
      ∧ (1 < deltaDemoSeries.length
          ∧ ((with_coverage_change deltaDemoSeries).getD 1
                ⟨⟨1, 1, 1⟩, 0, 0⟩).coverage_change =
              if 1 = 0 then 0
              else (deltaDemoSeries.getD 1 (⟨1, 1, 1⟩, 0)).2
                - (deltaDemoSeries.getD 0 (⟨1, 1, 1⟩, 0)).2)
      ∧ repository_chart_series ChartOrdering.decreasing deltaDemoSeries =
          (repository_chart_series ChartOrdering.increasing deltaDemoSeries).reverse :=
  ⟨(coverage_change_chronological _).1,
    ⟨by decide, (coverage_change_chronological _).2.1 1 (by decide)⟩,
    (coverage_change_chronological _).2.2⟩

/-! ## Claim theorems: parameter validator -/

/-- C5: an otherwise well-formed parameter bag with an owner identifier, a
valid non-commit grouping unit, and both aggregation fields absent fails
validation with exactly one error entry, keyed to `grouping_unit` — one
consolidated error for the dependent-field group, not one per missing
field. -/
theorem validate_params_single_grouping_unit_error
    (bag : List (String × String)) (own u : String)
    (hown : getParam bag "owner_username" = some own)
    (hgu : getParam bag "grouping_unit" = some u)
    (hallowed : u ∈ allowedGroupingUnits) (hnc : u ≠ "commit")
    (hf : getParam bag "agg_function" = none)
    (hv : getParam bag "agg_value" = none)
    (hkeys : ∀ k ∈ bag.map fun e => e.1, k ∈ schemaKeys)
    (hord : ∀ v, getParam bag "coverage_timestamp_ordering" = some v →
      v ∈ allowedOrderings) :
    validate_params bag = ["grouping_unit"] := by
  have h1 : ((bag.map fun e => e.1).dedup.filter fun k => k ∉ schemaKeys) = [] := by
    refine List.filter_eq_nil_iff.mpr fun k hk => ?_
    simpa using hkeys k (List.mem_dedup.mp hk)
  have h2 : (if getParam bag "owner_username" = none then ["owner_username"] else []) =
      ([] : List String) := by
    rw [hown]; simp
  have h3 : enumFieldErrors bag "grouping_unit" allowedGroupingUnits = [] := by
    rw [enumFieldErrors, hgu]; simp [hallowed]
  have h4 : enumFieldErrors bag "agg_function" allowedAggFunctions = [] := by
    rw [enumFieldErrors, hf]
  have h5 : enumFieldErrors bag "agg_value" allowedAggValues = [] := by
    rw [enumFieldErrors, hv]
  have h6 : enumFieldErrors bag "coverage_timestamp_ordering" allowedOrderings = [] := by
    rw [enumFieldErrors]
    cases hcto : getParam bag "coverage_timestamp_ordering" with
    | none => rfl
    | some v => simp [hord v hcto]
  have h7 : aggDependencyErrors bag = ["grouping_unit"] := by
    rw [aggDependencyErrors, hgu]
    simp [hallowed, hnc, hf]
  rw [validate_params, h1, h2, h3, h4, h5, h6, h7]
  rfl

/-- C5 witness: supplying only the owner and `grouping_unit = month` yields
exactly the single consolidated `grouping_unit` error. -/
theorem validate_params_single_grouping_unit_error_witness :
    getParam aggMissingBag "owner_username" = some "org1"
      ∧ getParam aggMissingBag "grouping_unit" = some "month"
      ∧ "month" ∈ allowedGroupingUnits ∧ "month" ≠ "commit"
      ∧ getParam aggMissingBag "agg_function" = none
      ∧ getParam aggMissingBag "agg_value" = none
      ∧ (∀ k ∈ aggMissingBag.map fun e => e.1, k ∈ schemaKeys)
      ∧ validate_params aggMissingBag = ["grouping_unit"] :=
  ⟨by decide, by decide, by decide, by decide, by decide, by decide, by decide,
    validate_params_single_grouping_unit_error aggMissingBag "org1" "month"
      (by decide) (by decide) (by decide) (by decide) (by decide) (by decide)
      (by decide)
      (fun v hv => by
        rw [show getParam aggMissingBag "coverage_timestamp_ordering" = none
          from by decide] at hv
        exact Option.noConfusion hv)⟩

/-- C6: validation collects every detected error and never short-circuits:
the reported error set contains an entry for every key outside the closed
schema, an entry for `owner_username` whenever it is absent, and an entry
for each of `grouping_unit`, `agg_function` and
`coverage_timestamp_ordering` supplied with a value outside its enumerated
set. -/
theorem validate_params_collects_all_errors (bag : List (String × String)) :
    (∀ k, k ∈ bag.map (fun e => e.1) → k ∉ schemaKeys → k ∈ validate_params bag)
      ∧ (getParam bag "owner_username" = none →
          "owner_username" ∈ validate_params bag)
      ∧ (∀ v, getParam bag "grouping_unit" = some v → v ∉ allowedGroupingUnits →
          "grouping_unit" ∈ validate_params bag)
      ∧ (∀ v, getParam bag "agg_function" = some v → v ∉ allowedAggFunctions →
          "agg_function" ∈ validate_params bag)
      ∧ (∀ v, getParam bag "coverage_timestamp_ordering" = some v →
          v ∉ allowedOrderings →
          "coverage_timestamp_ordering" ∈ validate_params bag) := by
  refine ⟨fun k hk hns => ?_, fun h => ?_, fun v hv hns => ?_, fun v hv hns => ?_,
    fun v hv hns => ?_⟩
  · rw [validate_params]
    refine List.mem_append.mpr (Or.inl (List.mem_append.mpr (Or.inl
      (List.mem_append.mpr (Or.inl (List.mem_append.mpr (Or.inl
        (List.mem_append.mpr (Or.inl (List.mem_append.mpr (Or.inl ?_)))))))))))
    exact List.mem_filter.mpr ⟨List.mem_dedup.mpr hk, by simpa using hns⟩
  · rw [validate_params]
    refine List.mem_append.mpr (Or.inl (List.mem_append.mpr (Or.inl
      (List.mem_append.mpr (Or.inl (List.mem_append.mpr (Or.inl
        (List.mem_append.mpr (Or.inl (List.mem_append.mpr (Or.inr ?_)))))))))))
    simp [h]
  · rw [validate_params]
    refine List.mem_append.mpr (Or.inl (List.mem_append.mpr (Or.inl
      (List.mem_append.mpr (Or.inl (List.mem_append.mpr (Or.inl
        (List.mem_append.mpr (Or.inr ?_)))))))))
    rw [enumFieldErrors, hv]
    simp [hns]
  · rw [validate_params]
    refine List.mem_append.mpr (Or.inl (List.mem_append.mpr (Or.inl
      (List.mem_append.mpr (Or.inl (List.mem_append.mpr (Or.inr ?_)))))))
    rw [enumFieldErrors, hv]
    simp [hns]
  · rw [validate_params]
    refine List.mem_append.mpr (Or.inl (List.mem_append.mpr (Or.inr ?_)))
    rw [enumFieldErrors, hv]
    simp [hns]

/-- C6 witness: on the all-invalid bag the reported errors include the
unknown key, the missing owner field, and each enumerated-value
violation. -/
theorem validate_params_collects_all_errors_witness :
    ("field_not_in_schema" ∈ (invalidBag.map fun e => e.1)
        ∧ "field_not_in_schema" ∉ schemaKeys
        ∧ "field_not_in_schema" ∈ validate_params invalidBag)
      ∧ (getParam invalidBag "owner_username" = none
        ∧ "owner_username" ∈ validate_params invalidBag)
      ∧ (getParam invalidBag "grouping_unit" = some "potato"
        ∧ "potato" ∉ allowedGroupingUnits
        ∧ "grouping_unit" ∈ validate_params invalidBag)
      ∧ (getParam invalidBag "agg_function" = some "potato"
        ∧ "agg_function" ∈ validate_params invalidBag)
      ∧ (getParam invalidBag "coverage_timestamp_ordering" = some "potato"
        ∧ "coverage_timestamp_ordering" ∈ validate_params invalidBag) :=
  ⟨⟨by decide, by decide,
      (validate_params_collects_all_errors invalidBag).1 "field_not_in_schema"
        (by decide) (by decide)⟩,
    ⟨by decide, (validate_params_collects_all_errors invalidBag).2.1 (by decide)⟩,
    ⟨by decide, by decide,
      (validate_params_collects_all_errors invalidBag).2.2.1 "potato"
        (by decide) (by decide)⟩,
    ⟨by decide,
      (validate_params_collects_all_errors invalidBag).2.2.2.1 "potato"
        (by decide) (by decide)⟩,
    ⟨by decide,
      (validate_params_collects_all_errors invalidBag).2.2.2.2 "potato"
        (by decide) (by decide)⟩⟩

/-! ## Helper lemmas: carry-forward and empty scope -/

theorem fillSeries_const_of_no_winner (w : Date → Option Commit)
    (last : Option Commit) (buckets : List Date)
    (hw : ∀ b ∈ buckets, w b = none) :
    fillSeries w last buckets = buckets.map fun _ => last := by
  induction buckets with
  | nil => rfl
  | cons b rest ih =>
      have hb : w b = none := hw b (List.mem_cons_self b rest)
      have hrest := ih fun b' hb' => hw b' (List.mem_cons_of_mem b hb')
      simp only [fillSeries, hb, List.map_cons, Option.orElse, hrest]

theorem fillSeries_getD_succ (w : Date → Option Commit) (buckets : List Date)
    (last : Option Commit) (i : Nat) (hi : i + 1 < buckets.length)
    (hw : w (buckets.getD (i + 1) ⟨1, 1, 1⟩) = none) :
    (fillSeries w last buckets).getD (i + 1) none =
      (fillSeries w last buckets).getD i none := by
  induction buckets generalizing last i with
  | nil => simp at hi
  | cons b rest ih =>
      cases i with
      | zero =>
          cases rest with
          | nil => simp at hi
          | cons b' rest' =>
              have hb' : w b' = none := by simpa using hw
              simp [fillSeries, hb', Option.orElse]
      | succ j =>
          have hj : j + 1 < rest.length := by simpa using hi
          have hw' : w (rest.getD (j + 1) ⟨1, 1, 1⟩) = none := by simpa using hw
          simpa [fillSeries] using ih ((w b).orElse fun _ => last) j hj hw'

theorem mergeFilled_all_none (buckets : List Date)
    (filled : List (List (Option Commit)))
    (hnone : ∀ s ∈ filled, ∀ x ∈ s, x = none) :
    mergeFilled buckets filled = [] := by
  induction buckets generalizing filled with
  | nil => rfl
  | cons b rest ih =>
      have hts : (filled.filterMap fun s => (s.head?.join).bind fun c => c.totals) = [] := by
        refine List.filterMap_eq_nil_iff.mpr fun s hs => ?_
        cases hhd : s.head? with
        | none => simp [hhd]
        | some x =>
            have hx : x = none := hnone s hs x (List.mem_of_mem_head? hhd)
            simp [hhd, hx]
      rw [mergeFilled]
      simp only [hts, List.isEmpty_nil, if_pos]
      simp only [List.nil_append]
      refine ih (filled.map fun s => s.tail) ?_
      intro s hs x hx
      rcases List.mem_map.mp hs with ⟨s', hs', rfl⟩
      exact hnone s' hs' x (List.mem_of_mem_tail hx)

theorem repoCommits_eq_nil_of_unscoped (db : Database) (user : User)
    (p : RunnerParams) (rid : Nat) (hrid : rid ∈ repoids db user p)
    (hB : ∀ c ∈ db.commits, c.repository ∉ repoids db user p) :
    repoCommits db rid = [] := by
  refine List.filter_eq_nil_iff.mpr fun c hc => ?_
  simp only [decide_eq_true_eq, not_and]
  intro hrep
  exact absurd (hrep ▸ hrid) (hB c hc)

theorem orderPoints_nil (o : ChartOrdering) : orderPoints o [] = [] := by
  cases o <;> rfl

/-! ## Claim theorems: merge, carry-forward, empty scope -/

/-- C2: each merged bucket sums lines, hits, misses and partials across the
contributing records and recomputes coverage as the weighted percentage
`round((hits + partials) / lines * 100, 2)`; on the fixture totals the
merged point is 114 hits / 145 lines / 15 misses / 16 partials with
coverage 89.66, which differs from the arithmetic mean of the two
per-repository percentages. -/
theorem mergeBucket_weighted_totals :
    (∀ (b : Date) (ts : List Totals),
        (mergeBucket b ts).total_lines = (ts.map fun t => t.n).sum
          ∧ (mergeBucket b ts).total_hits = (ts.map fun t => t.h).sum
          ∧ (mergeBucket b ts).total_misses = (ts.map fun t => t.m).sum
          ∧ (mergeBucket b ts).total_partials = (ts.map fun t => t.p).sum
          ∧ ((ts.map fun t => t.n).sum ≠ 0 →
              (mergeBucket b ts).coverage =
                round2 (((((ts.map fun t => t.h).sum : Nat) : Rat)
                    + (((ts.map fun t => t.p).sum : Nat) : Rat))
                  / ((((ts.map fun t => t.n).sum : Nat) : Rat)) * 100)))
      ∧ run_query demoDb demoUser demoParams demoNow = [demoMergedPoint]
      ∧ demoMergedPoint.coverage ≠
          (round2 ((110 : Rat) / 120 * 100) + round2 ((20 : Rat) / 25 * 100)) / 2 := by
  refine ⟨fun b ts => ⟨rfl, rfl, rfl, rfl, fun h => ?_⟩, ?_, ?_⟩
  · have hcov : (mergeBucket b ts).coverage =
        if (ts.map fun t => t.n).sum = 0 then (0 : Rat)
        else round2 (((((ts.map fun t => t.h).sum : Nat) : Rat)
            + (((ts.map fun t => t.p).sum : Nat) : Rat))
          / ((((ts.map fun t => t.n).sum : Nat) : Rat)) * 100) := rfl
    rw [hcov, if_neg h]
  · have h1 : run_query demoDb demoUser demoParams demoNow =
        [mergeBucket ⟨2020, 5, 15⟩ [demoTotals1, demoTotals2]] := rfl
    have h2 : mergeBucket (⟨2020, 5, 15⟩ : Date) [demoTotals1, demoTotals2] =
        demoMergedPoint := by
      simp only [mergeBucket, demoTotals1, demoTotals2, demoMergedPoint, round2]
      norm_num [round_eq]
    rw [h1, h2]
  · norm_num [demoMergedPoint, round2, round_eq]

/-- C2 witness: merging the two fixture totals blobs in one bucket gives
the summed counts and the weighted coverage. -/
theorem mergeBucket_weighted_totals_witness :
    (([demoTotals1, demoTotals2].map fun t => t.n).sum ≠ 0
      ∧ (mergeBucket ⟨2020, 5, 15⟩ [demoTotals1, demoTotals2]).coverage =
          round2 ((((([demoTotals1, demoTotals2].map fun t => t.h).sum : Nat) : Rat)
              + ((([demoTotals1, demoTotals2].map fun t => t.p).sum : Nat) : Rat))
            / (((([demoTotals1, demoTotals2].map fun t => t.n).sum : Nat) : Rat)) * 100))
      ∧ (mergeBucket ⟨2020, 5, 15⟩ [demoTotals1, demoTotals2]).total_hits =
          ([demoTotals1, demoTotals2].map fun t => t.h).sum :=
  ⟨⟨by decide,
      (mergeBucket_weighted_totals.1 ⟨2020, 5, 15⟩ [demoTotals1, demoTotals2]).2.2.2.2
        (by decide)⟩,
    (mergeBucket_weighted_totals.1 ⟨2020, 5, 15⟩ [demoTotals1, demoTotals2]).2.1⟩

/-- C3: walking buckets chronologically, a bucket with no new winning
record inherits the record of the immediately preceding non-empty bucket,
chaining across consecutive empty buckets; a repository whose only record
predates the start date still contributes that record to every bucket — on
the fixture scenario the week-old record of the first repository appears in
both requested buckets. -/
theorem carry_forward_inherits_previous_bucket :
    (∀ (w : Date → Option Commit) (buckets : List Date) (last : Option Commit)
        (i : Nat), i + 1 < buckets.length →
        w (buckets.getD (i + 1) ⟨1, 1, 1⟩) = none →
        (fillSeries w last buckets).getD (i + 1) none =
          (fillSeries w last buckets).getD i none)
      ∧ (∀ (w : Date → Option Commit) (r : Commit) (buckets : List Date),
          (∀ b ∈ buckets, w b = none) →
          fillSeries w (some r) buckets = buckets.map fun _ => some r)
      ∧ run_query carryDb demoUser carryParams demoNow =
          [carryPoint1, demoMergedPoint] := by
  refine ⟨fun w buckets last i hi hw => fillSeries_getD_succ w buckets last i hi hw,
    fun w r buckets hw => fillSeries_const_of_no_winner w (some r) buckets hw, ?_⟩
  have h1 : run_query carryDb demoUser carryParams demoNow =
      [mergeBucket ⟨2020, 5, 14⟩ [demoTotals1],
        mergeBucket ⟨2020, 5, 15⟩ [demoTotals1, demoTotals2]] := rfl
  have h2 : mergeBucket (⟨2020, 5, 14⟩ : Date) [demoTotals1] = carryPoint1 := by
    simp only [mergeBucket, demoTotals1, carryPoint1, round2]
    norm_num [round_eq]
  have h3 : mergeBucket (⟨2020, 5, 15⟩ : Date) [demoTotals1, demoTotals2] =
      demoMergedPoint := by
    simp only [mergeBucket, demoTotals1, demoTotals2, demoMergedPoint, round2]
    norm_num [round_eq]
  rw [h1, h2, h3]

/-- C3 witness: with no winner in any bucket a record from before the range
fills every bucket, and an empty bucket inherits the value of its
predecessor. -/
theorem carry_forward_inherits_previous_bucket_witness :
    ((∀ b ∈ [(⟨2020, 5, 14⟩ : Date), ⟨2020, 5, 15⟩],
        (fun _ : Date => (none : Option Commit)) b = none)
      ∧ fillSeries (fun _ => none) (some noComplexityCommit)
          [⟨2020, 5, 14⟩, ⟨2020, 5, 15⟩] =
          [(⟨2020, 5, 14⟩ : Date), ⟨2020, 5, 15⟩].map fun _ => some noComplexityCommit)
      ∧ (0 + 1 < ([(⟨2020, 5, 14⟩ : Date), ⟨2020, 5, 15⟩]).length
        ∧ (fillSeries (fun _ => none) (some noComplexityCommit)
              [⟨2020, 5, 14⟩, ⟨2020, 5, 15⟩]).getD (0 + 1) none =
            (fillSeries (fun _ => none) (some noComplexityCommit)
              [⟨2020, 5, 14⟩, ⟨2020, 5, 15⟩]).getD 0 none) :=
  ⟨⟨fun b _ => rfl,
      carry_forward_inherits_previous_bucket.2.1 (fun _ => none) noComplexityCommit
        [⟨2020, 5, 14⟩, ⟨2020, 5, 15⟩] (fun b _ => rfl)⟩,
    ⟨by decide,
      carry_forward_inherits_previous_bucket.1 (fun _ => none)
        [⟨2020, 5, 14⟩, ⟨2020, 5, 15⟩] (some noComplexityCommit) 0 (by decide) rfl⟩⟩

/-- C8: a query whose identity has no permitted repository under the
requested owner, or whose permitted repositories contain no commits,
returns the empty series rather than failing: insufficient permission only
narrows the scope. -/
theorem run_query_empty_scope_no_error (db : Database) (user : User)
    (p : RunnerParams) (now : DateTime)
    (h : repoids db user p = [] ∨ ∀ c ∈ db.commits, c.repository ∉ repoids db user p) :
    run_query db user p now = [] := by
  have hcomplete : completeCommits db (repoids db user p) = [] := by
    refine List.filter_eq_nil_iff.mpr fun c hc => ?_
    simp only [decide_eq_true_eq, not_and]
    intro hrep
    cases h with
    | inl h0 => rw [h0] at hrep; exact absurd hrep (List.not_mem_nil _)
    | inr hB => exact absurd hrep (hB c hc)
  have hfillnone : ∀ sd : Date,
      ∀ s ∈ (repoids db user p).map fun rid =>
        fillSeries (bucketWinner db p.grouping_unit rid)
          (lastKnownBefore db p.grouping_unit rid (truncateDate p.grouping_unit sd))
          (dateSeries p.grouping_unit (truncateDate p.grouping_unit sd)
            (runner_end_date p now)),
      ∀ x ∈ s, x = none := by
    intro sd s hs x hx
    rcases List.mem_map.mp hs with ⟨rid, hrid, rfl⟩
    have hrc : repoCommits db rid = [] := by
      cases h with
      | inl h0 => rw [h0] at hrid; exact absurd hrid (List.not_mem_nil _)
      | inr hB => exact repoCommits_eq_nil_of_unscoped db user p rid hrid hB
    have hw : ∀ b, bucketWinner db p.grouping_unit rid b = none := by
      intro b; rw [bucketWinner, hrc]; rfl
    have hlast : lastKnownBefore db p.grouping_unit rid
        (truncateDate p.grouping_unit sd) = none := by
      rw [lastKnownBefore, hrc]; rfl
    rw [hlast, fillSeries_const_of_no_winner _ _ _ fun b _ => hw b] at hx
    rcases List.mem_map.mp hx with ⟨b, _, rfl⟩
    rfl
  rw [run_query]
  cases hsd : runner_start_date db user p with
  | none => rfl
  | some sd =>
      have h1 : mergeFilled
          (dateSeries p.grouping_unit (truncateDate p.grouping_unit sd)
            (runner_end_date p now))
          ((repoids db user p).map fun rid =>
            fillSeries (bucketWinner db p.grouping_unit rid)
              (lastKnownBefore db p.grouping_unit rid (truncateDate p.grouping_unit sd))
              (dateSeries p.grouping_unit (truncateDate p.grouping_unit sd)
                (runner_end_date p now))) = [] :=
        mergeFilled_all_none _ _ (hfillnone sd)
      show orderPoints p.ordering (mergeFilled
        (dateSeries p.grouping_unit (truncateDate p.grouping_unit sd)
          (runner_end_date p now))
        ((repoids db user p).map fun rid =>
          fillSeries (bucketWinner db p.grouping_unit rid)
            (lastKnownBefore db p.grouping_unit rid (truncateDate p.grouping_unit sd))
            (dateSeries p.grouping_unit (truncateDate p.grouping_unit sd)
              (runner_end_date p now)))) = []
      rw [h1, orderPoints_nil]

/-- C8 witness: an owner with no permitted repositories yields the empty
series. -/
theorem run_query_empty_scope_no_error_witness :
    (repoids demoDb demoUser emptyScopeParams = []
        ∨ ∀ c ∈ demoDb.commits, c.repository ∉ repoids demoDb demoUser emptyScopeParams)
      ∧ run_query demoDb demoUser emptyScopeParams demoNow = [] :=
  ⟨Or.inl (by decide),
    run_query_empty_scope_no_error demoDb demoUser emptyScopeParams demoNow
      (Or.inl (by decide))⟩

/-! ## Helper lemmas: grouping stage -/

theorem better_trans (f : AggFunction) (v : AggValue) {a b c : AnnotatedCommit}
    (h1 : better f v a b) (h2 : better f v b c) : better f v a c := by
  cases f with
  | max =>
      simp only [better] at h1 h2 ⊢
      rcases h1 with h1 | ⟨e1, t1⟩
      · rcases h2 with h2 | ⟨e2, t2⟩
        · exact Or.inl (h2.trans h1)
        · exact Or.inl (e2 ▸ h1)
      · rcases h2 with h2 | ⟨e2, t2⟩
        · exact Or.inl (lt_of_lt_of_eq h2 e1.symm)
        · exact Or.inr ⟨e1.trans e2, t2.trans t1⟩
  | min =>
      simp only [better] at h1 h2 ⊢
      rcases h1 with h1 | ⟨e1, t1⟩
      · rcases h2 with h2 | ⟨e2, t2⟩
        · exact Or.inl (h1.trans h2)
        · exact Or.inl (lt_of_lt_of_eq h1 e2)
      · rcases h2 with h2 | ⟨e2, t2⟩
        · exact Or.inl (lt_of_eq_of_lt e1 h2)
        · exact Or.inr ⟨e1.trans e2, t1.trans t2⟩

theorem better_irrefl (f : AggFunction) (v : AggValue) (a : AnnotatedCommit) :
    ¬ better f v a a := by
  cases f <;> simp [better]

theorem pickWinner_isSome (f : AggFunction) (v : AggValue) (a : AnnotatedCommit)
    (rest : List AnnotatedCommit) : ∃ w, pickWinner f v (a :: rest) = some w := by
  simp only [pickWinner]
  cases pickWinner f v rest with
  | none => exact ⟨a, rfl⟩
  | some b =>
      by_cases hb : better f v a b
      · exact ⟨a, if_pos hb⟩
      · exact ⟨b, if_neg hb⟩

theorem pickWinner_eq_none (f : AggFunction) (v : AggValue)
    {l : List AnnotatedCommit} (h : pickWinner f v l = none) : l = [] := by
  cases l with
  | nil => rfl
  | cons a rest =>
      rcases pickWinner_isSome f v a rest with ⟨w, hw⟩
      rw [hw] at h
      cases h

theorem pickWinner_mem (f : AggFunction) (v : AggValue) :
    ∀ {l : List AnnotatedCommit} {w}, pickWinner f v l = some w → w ∈ l := by
  intro l
  induction l with
  | nil => intro w h; simp [pickWinner] at h
  | cons a rest ih =>
      intro w h
      simp only [pickWinner] at h
      cases hrest : pickWinner f v rest with
      | none =>
          rw [hrest] at h
          have h' : some a = some w := h
          cases h'
          exact List.mem_cons_self a rest
      | some b =>
          rw [hrest] at h
          have h' : (if better f v a b then some a else some b) = some w := h
          by_cases hb : better f v a b
          · rw [if_pos hb] at h'
            cases h'
            exact List.mem_cons_self a rest
          · rw [if_neg hb] at h'
            cases h'
            exact List.mem_cons_of_mem a (ih hrest)

theorem pickWinner_not_beaten (f : AggFunction) (v : AggValue) :
    ∀ {l : List AnnotatedCommit} {w}, pickWinner f v l = some w →
      ∀ c ∈ l, ¬ better f v c w := by
  intro l
  induction l with
  | nil => intro w _ c hc; cases hc
  | cons a rest ih =>
      intro w h
      simp only [pickWinner] at h
      cases hrest : pickWinner f v rest with
      | none =>
          have hnil : rest = [] := pickWinner_eq_none f v hrest
          rw [hrest] at h
          have h' : some a = some w := h
          cases h'
          subst hnil
          intro c hc
          rcases List.mem_cons.mp hc with rfl | hcr
          · exact better_irrefl f v c
          · cases hcr
      | some b =>
          have ihb := ih hrest
          rw [hrest] at h
          have h' : (if better f v a b then some a else some b) = some w := h
          by_cases hb : better f v a b
          · rw [if_pos hb] at h'
            cases h'
            intro c hc
            rcases List.mem_cons.mp hc with rfl | hcr
            · exact better_irrefl f v c
            · intro hca
              exact ihb c hcr (better_trans f v hca hb)
          · rw [if_neg hb] at h'
            cases h'
            intro c hc
            rcases List.mem_cons.mp hc with rfl | hcr
            · exact hb
            · exact ihb c hcr

theorem pickWinner_filter_key (u : GroupingUnit) (f : AggFunction) (v : AggValue)
    (l : List AnnotatedCommit) (k : Nat × Date) (w : AnnotatedCommit)
    (h : pickWinner f v (l.filter fun a => bucketKey u a = k) = some w) :
    bucketKey u w = k := by
  have hm := pickWinner_mem f v h
  simpa using (List.mem_filter.mp hm).2

theorem mem_groupWinners (u : GroupingUnit) (f : AggFunction) (v : AggValue)
    (l : List AnnotatedCommit) (w : AnnotatedCommit)
    (hw : w ∈ groupWinners u f v l) :
    w ∈ l ∧ ∀ c ∈ l, bucketKey u c = bucketKey u w → ¬ better f v c w := by
  rcases List.mem_filterMap.mp hw with ⟨k, _, hpick⟩
  have hkey : bucketKey u w = k := pickWinner_filter_key u f v l k w hpick
  have hmem : w ∈ l := (List.mem_filter.mp (pickWinner_mem f v hpick)).1
  refine ⟨hmem, fun c hc hck => ?_⟩
  have hcf : c ∈ l.filter fun a => bucketKey u a = k :=
    List.mem_filter.mpr ⟨hc, by simp [hck, hkey]⟩
  exact pickWinner_not_beaten f v hpick c hcf

theorem exists_groupWinner (u : GroupingUnit) (f : AggFunction) (v : AggValue)
    (l : List AnnotatedCommit) (c : AnnotatedCommit) (hc : c ∈ l) :
    ∃ w ∈ groupWinners u f v l, bucketKey u w = bucketKey u c := by
  have hkmem : bucketKey u c ∈ (l.map (bucketKey u)).dedup :=
    List.mem_dedup.mpr (List.mem_map_of_mem (bucketKey u) hc)
  have hck : c ∈ l.filter fun a => bucketKey u a = bucketKey u c :=
    List.mem_filter.mpr ⟨hc, by simp⟩
  cases hfil : l.filter fun a => bucketKey u a = bucketKey u c with
  | nil => rw [hfil] at hck; cases hck
  | cons a rest =>
      rcases pickWinner_isSome f v a rest with ⟨w, hw⟩
      have hpick : pickWinner f v (l.filter fun a => bucketKey u a = bucketKey u c) =
          some w := by rw [hfil]; exact hw
      exact ⟨w, List.mem_filterMap.mpr ⟨bucketKey u c, hkmem, hpick⟩,
        pickWinner_filter_key u f v l (bucketKey u c) w hpick⟩

theorem groupWinners_key_mem_of_keys (u : GroupingUnit) (f : AggFunction)
    (v : AggValue) (l : List AnnotatedCommit) (ks : List (Nat × Date))
    (w : AnnotatedCommit)
    (hw : w ∈ ks.filterMap fun k => pickWinner f v (l.filter fun a => bucketKey u a = k)) :
    bucketKey u w ∈ ks := by
  rcases List.mem_filterMap.mp hw with ⟨k, hk, hpick⟩
  rw [pickWinner_filter_key u f v l k w hpick]
  exact hk

theorem countP_filterMap_winners (u : GroupingUnit) (f : AggFunction) (v : AggValue)
    (l : List AnnotatedCommit) (k0 : Nat × Date) :
    ∀ ks : List (Nat × Date), ks.Nodup →
      (ks.filterMap fun k => pickWinner f v (l.filter fun a => bucketKey u a = k)).countP
        (fun w => decide (bucketKey u w = k0)) ≤ 1 := by
  intro ks
  induction ks with
  | nil => intro _; simp
  | cons k ks ih =>
      intro hnd
      rw [List.filterMap_cons]
      cases hp : pickWinner f v (l.filter fun a => bucketKey u a = k) with
      | none => exact ih (List.nodup_cons.mp hnd).2
      | some w =>
          have hkw : bucketKey u w = k := pickWinner_filter_key u f v l k w hp
          by_cases hk0 : bucketKey u w = k0
          · rw [List.countP_cons_of_pos _ _ (by simp [hk0])]
            have hzero : (ks.filterMap fun k' =>
                pickWinner f v (l.filter fun a => bucketKey u a = k')).countP
                  (fun w' => decide (bucketKey u w' = k0)) = 0 := by
              rw [List.countP_eq_zero]
              intro w' hw'
              have hmem : bucketKey u w' ∈ ks :=
                groupWinners_key_mem_of_keys u f v l ks w' hw'
              simp only [decide_eq_true_eq]
              intro he
              rw [he, ← hk0, hkw] at hmem
              exact (List.nodup_cons.mp hnd).1 hmem
            rw [hzero]
          · rw [List.countP_cons_of_neg _ _ (by simp [hk0])]
            exact ih (List.nodup_cons.mp hnd).2

theorem orderGrouped_perm (o : ChartOrdering) (l : List AnnotatedCommit) :
    (orderGrouped o l).Perm l := by
  cases o
  · exact List.perm_insertionSort _ _
  · exact List.perm_insertionSort _ _

/-! ## Claim theorem: grouping stage -/

/-- C1: for every non-commit grouping unit, `apply_grouping` returns
exactly one winning record per (repository, truncated window): the output
draws from the input, every populated window is represented, no window is
represented twice, and under `min` no record of the same window has a
strictly smaller metric value than the winner (strictly greater under
`max`), with ties broken toward the earliest timestamp for `min` and the
latest for `max`. -/
theorem apply_grouping_selects_unique_optimal_winners
    (l : List AnnotatedCommit) (p : ChartParams)
    (h : p.grouping_unit ≠ GroupingUnit.commit) : GroupingCorrect l p := by
  have hperm : (apply_grouping l p).Perm
      (groupWinners p.grouping_unit p.agg_function p.agg_value l) := by
    rw [apply_grouping, if_neg h]
    exact orderGrouped_perm _ _
  refine ⟨?_, ?_, ?_, ?_⟩
  · intro w hw
    exact (mem_groupWinners _ _ _ _ w (hperm.mem_iff.mp hw)).1
  · intro c hc
    rcases exists_groupWinner p.grouping_unit p.agg_function p.agg_value l c hc with
      ⟨w, hwin, hkey⟩
    exact ⟨w, hperm.mem_iff.mpr hwin, hkey⟩
  · intro k
    rw [hperm.countP_eq]
    exact countP_filterMap_winners p.grouping_unit p.agg_function p.agg_value l k _
      (List.nodup_dedup _)
  · intro w hw c hc hkey
    have hnb := (mem_groupWinners _ _ _ _ w (hperm.mem_iff.mp hw)).2 c hc hkey
    constructor
    · intro hf
      rw [hf] at hnb
      simp only [better] at hnb
      push_neg at hnb
      exact hnb
    · intro hf
      rw [hf] at hnb
      simp only [better] at hnb
      push_neg at hnb
      exact hnb

/-- C1 witness: on the three-record fixture grouped by day with minimum
coverage the grouping contract holds. -/
theorem apply_grouping_selects_unique_optimal_winners_witness :
    groupDemoParams.grouping_unit ≠ GroupingUnit.commit
      ∧ GroupingCorrect groupDemoList groupDemoParams :=
  ⟨by decide,
    apply_grouping_selects_unique_optimal_winners groupDemoList groupDemoParams
      (by decide)⟩

/-! ## Helper lemmas: pipeline stage inclusions -/

theorem apply_simple_filters_subset (db : Database) (user : User)
    (data : SimpleFilterParams) (now : DateTime) (records : List Commit)
    (c : Commit) (hc : c ∈ apply_simple_filters db user data now records) :
    c ∈ records :=
  (List.mem_filter.mp hc).1

theorem annotate_commits_subset (l : List Commit) (a : AnnotatedCommit)
    (ha : a ∈ annotate_commits_with_totals l) :
    a.commit ∈ l ∧ a.commit.totals.isSome := by
  rcases List.mem_filterMap.mp ha with ⟨c, hc, hmap⟩
  cases ht : c.totals with
  | none => rw [ht] at hmap; cases hmap
  | some t =>
      rw [ht, Option.map_some'] at hmap
      injection hmap with h
      subst h
      refine ⟨hc, ?_⟩
      show c.totals.isSome = true
      rw [ht]
      rfl

theorem apply_grouping_subset (l : List AnnotatedCommit) (p : ChartParams) :
    ∀ a ∈ apply_grouping l p, a ∈ l := by
  intro a ha
  rw [apply_grouping] at ha
  by_cases h : p.grouping_unit = GroupingUnit.commit
  · rw [if_pos h] at ha
    exact (orderGrouped_perm _ _).mem_iff.mp ha
  · rw [if_neg h] at ha
    exact (mem_groupWinners _ _ _ _ a ((orderGrouped_perm _ _).mem_iff.mp ha)).1

/-! ## Claim theorem: default filter stage -/

/-- C7: the output of `apply_default_filters` is exactly the subset of its
input whose records are complete, not deleted, CI-passed and carry totals —
a record is in the output precisely when it is in the input and satisfies
all four conditions — and the stage is applied first, unconditionally: the
per-repository chart pipeline factors through `apply_default_filters` as
its first stage, so for every parameterization every record surviving the
pipeline satisfies all four conditions. -/
theorem apply_default_filters_exact_subset :
    (∀ (l : List Commit) (c : Commit),
        c ∈ apply_default_filters l ↔
          c ∈ l ∧ c.state = CommitState.complete ∧ c.deleted = false
            ∧ c.ci_passed = true ∧ c.totals.isSome)
      ∧ (∀ (db : Database) (user : User) (data : SimpleFilterParams)
            (now : DateTime) (records : List Commit) (p : ChartParams),
          repository_chart_pipeline db user data now records p =
            apply_grouping (annotate_commits_with_totals
              (apply_simple_filters db user data now
                (apply_default_filters records))) p)
      ∧ (∀ (db : Database) (user : User) (data : SimpleFilterParams)
            (now : DateTime) (records : List Commit) (p : ChartParams),
          ∀ a ∈ repository_chart_pipeline db user data now records p,
            a.commit ∈ records ∧ a.commit.state = CommitState.complete
              ∧ a.commit.deleted = false ∧ a.commit.ci_passed = true
              ∧ a.commit.totals.isSome) := by
  refine ⟨mem_apply_default_filters, fun _ _ _ _ _ _ => rfl, ?_⟩
  intro db user data now records p a ha
  have h1 : a ∈ annotate_commits_with_totals
      (apply_simple_filters db user data now (apply_default_filters records)) :=
    apply_grouping_subset _ p a ha
  have h2 := annotate_commits_subset _ a h1
  have h3 : a.commit ∈ apply_default_filters records :=
    apply_simple_filters_subset db user data now _ a.commit h2.1
  have h4 := (mem_apply_default_filters records a.commit).mp h3
  exact ⟨h4.1, h4.2.1, h4.2.2.1, h4.2.2.2.1, h2.2⟩

/-- C7 witness: on a two-record fixture (one clean record, one pending
deleted CI-failed record without totals) the pipeline output is the clean
record annotated, and it satisfies all four default-filter conditions. -/
theorem apply_default_filters_exact_subset_witness :
    pipelineDemoAnnotated ∈ repository_chart_pipeline demoDb demoUser
        pipelineDemoFilters demoNow pipelineDemoRecords groupDemoParams
      ∧ pipelineDemoAnnotated.commit ∈ pipelineDemoRecords
      ∧ pipelineDemoAnnotated.commit.state = CommitState.complete
      ∧ pipelineDemoAnnotated.commit.deleted = false
      ∧ pipelineDemoAnnotated.commit.ci_passed = true
      ∧ pipelineDemoAnnotated.commit.totals.isSome :=
  ⟨by decide,
    apply_default_filters_exact_subset.2.2 demoDb demoUser pipelineDemoFilters
      demoNow pipelineDemoRecords groupDemoParams pipelineDemoAnnotated (by decide)⟩

end Charts
